import Mathlib

/-
Verification of the change-detection listener of the `booker` repository
(`src/pitchbook/listener.py`) against its specification.

The embedding is shallow:
- `Company`, `Deal`, `ChangeEvent` mirror the pydantic models of
  `src/pitchbook/models.py`.  Monetary floats are modelled as `Int` (the
  listener only ever compares them for equality, never does arithmetic on
  them), `date`/`datetime` values as `String`/`Nat` stamps.
- `Store` mirrors the observable state of `src/pitchbook/store.py`
  (companies keyed by `pitchbook_id` with the row/model conversions of
  `upsert_company`/`get_company`, deals, the append-only change-event log,
  and the watched-company registry).  `StoreFaults` injects store-layer
  exceptions into individual store operations.
- The provider client is a pair of functions returning `Except`
  (`get_company`, `get_company_deals` may raise).
- Listener methods become functions `Store → StepRes` where a `StepRes`
  carries the possibly-escaped exception, the resulting store, and a trace
  of observable actions (provider fetches, event-log appends, observer
  callback invocations) in execution order.
-/

namespace Booker

/-- `CompanyStatus` enum of `models.py`. -/
inductive CompanyStatus where
  | active
  | acquired
  | merged
  | inactive
  | publicly
deriving DecidableEq, Repr

/-- The string value of a `CompanyStatus` member (`StrEnum` values). -/
def CompanyStatus.value : CompanyStatus → String
  | .active => "active"
  | .acquired => "acquired"
  | .merged => "merged"
  | .inactive => "inactive"
  | .publicly => "public"

/-- Inverse of `CompanyStatus.value`: pydantic validation of a status string
(`Company(status=...)`); unknown strings fail validation. -/
def statusOfString (s : String) : Option CompanyStatus :=
  if s = "active" then some .active
  else if s = "acquired" then some .acquired
  else if s = "merged" then some .merged
  else if s = "inactive" then some .inactive
  else if s = "public" then some .publicly
  else none

/-- `DealType` enum of `models.py`. -/
inductive DealType where
  | series_a
  | series_b
  | series_c
  | series_d_plus
  | seed
  | angel
  | grant
  | debt
  | ipo
  | merger_acquisition
  | buyout
  | secondary
  | other
deriving DecidableEq, Repr

/-- The string value of a `DealType` member. -/
def DealType.value : DealType → String
  | .series_a => "series_a"
  | .series_b => "series_b"
  | .series_c => "series_c"
  | .series_d_plus => "series_d_plus"
  | .seed => "seed"
  | .angel => "angel"
  | .grant => "grant"
  | .debt => "debt"
  | .ipo => "ipo"
  | .merger_acquisition => "merger_acquisition"
  | .buyout => "buyout"
  | .secondary => "secondary"
  | .other => "other"

/-- JSON-like values appearing in a `ChangeEvent.details` map. -/
inductive JsonVal where
  | s (v : String)
  | n (v : Int)
  | arr (v : List String)
  | null
deriving DecidableEq, Repr

/-- `models.Company`.  Floats are `Int` (only compared for equality by the
listener), dates are ISO strings, `fetched_at` a `Nat` stamp. -/
structure Company where
  pitchbook_id : String
  name : String
  description : String := ""
  status : CompanyStatus := .active
  website : String := ""
  founded_date : Option String := none
  employee_count : Option Int := none
  primary_industry : String := ""
  primary_sector : String := ""
  hq_location : String := ""
  total_raised_usd : Option Int := none
  last_financing_date : Option String := none
  last_financing_deal_type : String := ""
  last_financing_size_usd : Option Int := none
  ownership_status : String := ""
  fetched_at : Nat := 0
deriving DecidableEq, Repr

/-- `models.Deal`. -/
structure Deal where
  pitchbook_id : String
  company_id : String
  deal_type : DealType := .other
  deal_date : Option String := none
  deal_size_usd : Option Int := none
  pre_money_valuation_usd : Option Int := none
  post_money_valuation_usd : Option Int := none
  lead_investors : List String := []
  all_investors : List String := []
  deal_status : String := ""
  deal_synopsis : String := ""
  fetched_at : Nat := 0
deriving DecidableEq, Repr

/-- `models.ChangeEvent`. -/
structure ChangeEvent where
  entity_type : String
  entity_id : String
  entity_name : String
  change_type : String
  summary : String
  detected_at : Nat := 0
  details : List (String × JsonVal) := []
deriving DecidableEq, Repr

/-- `store.CompanyRow`: the persisted form of a company snapshot.  The status
is stored as its string value (a `String` column). -/
structure CompanyRow where
  pitchbook_id : String
  name : String
  description : String
  status : String
  website : String
  founded_date : Option String
  employee_count : Option Int
  primary_industry : String
  primary_sector : String
  hq_location : String
  total_raised_usd : Option Int
  last_financing_date : Option String
  last_financing_deal_type : String
  last_financing_size_usd : Option Int
  ownership_status : String
  fetched_at : Nat
deriving DecidableEq, Repr

/-- The row written by `store.upsert_company` (`company.model_dump()`). -/
def companyToRow (c : Company) : CompanyRow :=
  { pitchbook_id := c.pitchbook_id
    name := c.name
    description := c.description
    status := c.status.value
    website := c.website
    founded_date := c.founded_date
    employee_count := c.employee_count
    primary_industry := c.primary_industry
    primary_sector := c.primary_sector
    hq_location := c.hq_location
    total_raised_usd := c.total_raised_usd
    last_financing_date := c.last_financing_date
    last_financing_deal_type := c.last_financing_deal_type
    last_financing_size_usd := c.last_financing_size_usd
    ownership_status := c.ownership_status
    fetched_at := c.fetched_at }

/-- The Python idiom `x or ""` applied to a string column. -/
def orEmpty (s : String) : String :=
  if s = "" then "" else s

/-- `store.get_company`'s reconstruction of a `Company` from a row.
`status=row.status or "active"` is then validated by pydantic; an
unrecognised status string raises (modelled as `none`). -/
def rowToCompany (row : CompanyRow) : Option Company :=
  match statusOfString (if row.status = "" then "active" else row.status) with
  | none => none
  | some st =>
      some
        { pitchbook_id := row.pitchbook_id
          name := row.name
          description := orEmpty row.description
          status := st
          website := orEmpty row.website
          founded_date := row.founded_date
          employee_count := row.employee_count
          primary_industry := orEmpty row.primary_industry
          primary_sector := orEmpty row.primary_sector
          hq_location := orEmpty row.hq_location
          total_raised_usd := row.total_raised_usd
          last_financing_date := row.last_financing_date
          last_financing_deal_type := orEmpty row.last_financing_deal_type
          last_financing_size_usd := row.last_financing_size_usd
          ownership_status := orEmpty row.ownership_status
          fetched_at := row.fetched_at }

/-- Observable state of `store.PitchBookStore` as used by the listener. -/
structure Store where
  companies : List CompanyRow
  deals : List Deal
  events : List ChangeEvent
  watched : List (String × String)
deriving DecidableEq, Repr

/-- Fault injection: which store operations raise a store-layer exception
(SQLite/SQLAlchemy errors can surface from any call). -/
structure StoreFaults where
  onGetCompany : Bool := false
  onUpsertCompany : Bool := false
  onGetDeals : Bool := false
  onUpsertDeal : Bool := false
  onRecordChange : Bool := false
  onListWatched : Bool := false
deriving DecidableEq, Repr

/-- A healthy store: no operation raises. -/
def noFaults : StoreFaults := {}

/-- Exception kinds the listener can observe. -/
inductive Err where
  | clientError
  | storeError
deriving DecidableEq, Repr

/-- Primary-key lookup in the companies table (`session.get(CompanyRow, id)`). -/
def findCompanyRow (rows : List CompanyRow) (cid : String) : Option CompanyRow :=
  rows.find? (fun r => r.pitchbook_id == cid)

/-- Replace-on-conflict insert keyed by `pitchbook_id`
(`store.upsert_company`'s row update / `session.add`). -/
def upsertRow (rows : List CompanyRow) (row : CompanyRow) : List CompanyRow :=
  if rows.any (fun r => r.pitchbook_id == row.pitchbook_id) then
    rows.map (fun r => if r.pitchbook_id == row.pitchbook_id then row else r)
  else
    rows ++ [row]

/-- Replace-on-conflict insert for deals (`store.upsert_deal`). -/
def upsertDealList (ds : List Deal) (d : Deal) : List Deal :=
  if ds.any (fun x => x.pitchbook_id == d.pitchbook_id) then
    ds.map (fun x => if x.pitchbook_id == d.pitchbook_id then d else x)
  else
    ds ++ [d]

/-- Primary-key lookup in the deals table. -/
def findDeal (ds : List Deal) (did : String) : Option Deal :=
  ds.find? (fun d => d.pitchbook_id == did)

/-- `store.get_company`. -/
def Store.getCompany (f : StoreFaults) (st : Store) (cid : String) :
    Except Err (Option Company) :=
  if f.onGetCompany then .error .storeError
  else
    match findCompanyRow st.companies cid with
    | none => .ok none
    | some row =>
        match rowToCompany row with
        | some c => .ok (some c)
        | none => .error .storeError

/-- `store.upsert_company`. -/
def Store.upsertCompany (f : StoreFaults) (st : Store) (c : Company) :
    Except Err Store :=
  if f.onUpsertCompany then .error .storeError
  else .ok { st with companies := upsertRow st.companies (companyToRow c) }

/-- `store.get_deals_for_company` (the `deal_date` ordering is irrelevant to
the listener, which only reads the set of deal ids). -/
def Store.getDealsForCompany (f : StoreFaults) (st : Store) (cid : String) :
    Except Err (List Deal) :=
  if f.onGetDeals then .error .storeError
  else .ok (st.deals.filter (fun d => d.company_id == cid))

/-- `store.upsert_deal`. -/
def Store.upsertDeal (f : StoreFaults) (st : Store) (d : Deal) :
    Except Err Store :=
  if f.onUpsertDeal then .error .storeError
  else .ok { st with deals := upsertDealList st.deals d }

/-- `store.record_change`: append to the change-event log. -/
def Store.recordChange (f : StoreFaults) (st : Store) (e : ChangeEvent) :
    Except Err Store :=
  if f.onRecordChange then .error .storeError
  else .ok { st with events := st.events ++ [e] }

/-- `store.list_watched_companies`. -/
def Store.listWatched (f : StoreFaults) (st : Store) :
    Except Err (List (String × String)) :=
  if f.onListWatched then .error .storeError
  else .ok st.watched

/-- The provider client interface consumed by the listener
(`client.get_company`, `client.get_company_deals`); either call may raise. -/
structure Client where
  getCompany : String → Except Err Company
  getCompanyDeals : String → Except Err (List Deal)

/-- A registered observer callback; `run` may raise (modelled as `.error`). -/
structure Callback where
  id : Nat
  run : ChangeEvent → Except Unit Unit

/-- Whether a callback invocation raised. -/
def raised : Except Unit Unit → Bool
  | .error _ => true
  | .ok _ => false

/-- Observable actions of one listener execution, in order. -/
inductive Action where
  | fetchCompany (cid : String)
  | fetchDeals (cid : String)
  | record (e : ChangeEvent)
  | invoke (cbId : Nat) (e : ChangeEvent) (raised : Bool)
deriving DecidableEq, Repr

/-- Result of one listener step: the exception that escaped it (if any), the
store as mutated up to that point, and the trace of observable actions. -/
structure StepRes where
  err : Option Err
  store : Store
  trace : List Action
deriving DecidableEq, Repr

/-- Sequencing with exception propagation: if the first step raised, the
second never runs but the first step's mutations and trace remain. -/
def StepRes.andThen (r : StepRes) (k : Store → StepRes) : StepRes :=
  match r.err with
  | some er => ⟨some er, r.store, r.trace⟩
  | none =>
      let r2 := k r.store
      ⟨r2.err, r2.store, r.trace ++ r2.trace⟩

/-- Prefix a step's trace with already-performed actions. -/
def StepRes.withTrace (pre : List Action) (r : StepRes) : StepRes :=
  ⟨r.err, r.store, pre ++ r.trace⟩

/-- The `new` event of first contact (`listener._check_company`). -/
def newCompanyEvent (cid cname : String) : ChangeEvent :=
  { entity_type := "company"
    entity_id := cid
    entity_name := cname
    change_type := "new"
    summary := "Initial data captured for " ++ cname }

/-- Python number formatting in summaries, abstracted to plain decimal
rendering (no diff logic ever reads a summary back). -/
def fmtInt (n : Int) : String := toString n

/-- The `status_change` event (`listener._detect_company_changes`). -/
def statusChangeEvent (old new : Company) : ChangeEvent :=
  { entity_type := "company"
    entity_id := new.pitchbook_id
    entity_name := new.name
    change_type := "status_change"
    summary := new.name ++ " status changed: " ++ old.status.value ++ " → " ++ new.status.value
    details := [("old_status", .s old.status.value), ("new_status", .s new.status.value)] }

/-- The `funding_update` event; `a`/`b` are the old/new totals, both non-null
in the emitting branch. -/
def fundingUpdateEvent (old new : Company) (a b : Int) : ChangeEvent :=
  { entity_type := "company"
    entity_id := new.pitchbook_id
    entity_name := new.name
    change_type := "funding_update"
    summary := new.name ++ " total raised changed: $" ++ fmtInt a ++ " → $" ++ fmtInt b
    details := [("old_total_raised", .n a), ("new_total_raised", .n b)] }

/-- The `employee_count_change` event; `a`/`b` are the old/new counts. -/
def employeeCountEvent (old new : Company) (a b : Int) : ChangeEvent :=
  { entity_type := "company"
    entity_id := new.pitchbook_id
    entity_name := new.name
    change_type := "employee_count_change"
    summary := new.name ++ " employee count changed: " ++ fmtInt a ++ " → " ++ fmtInt b
    details := [("old_count", .n a), ("new_count", .n b)] }

/-- JSON rendering of an optional number detail value. -/
def jsonOfOptInt : Option Int → JsonVal
  | some v => .n v
  | none => .null

/-- The `new_financing` event; `d` is the (non-null) new last-financing date. -/
def newFinancingEvent (new : Company) (d : String) : ChangeEvent :=
  { entity_type := "company"
    entity_id := new.pitchbook_id
    entity_name := new.name
    change_type := "new_financing"
    summary := new.name ++ " new financing: " ++ new.last_financing_deal_type ++ " on " ++ d
    details :=
      [("deal_type", .s new.last_financing_deal_type),
       ("date", .s d),
       ("size_usd", jsonOfOptInt new.last_financing_size_usd)] }

/-- `deal.model_dump(mode="json")` as a details map. -/
def dealDetails (d : Deal) : List (String × JsonVal) :=
  [("pitchbook_id", .s d.pitchbook_id),
   ("company_id", .s d.company_id),
   ("deal_type", .s d.deal_type.value),
   ("deal_date", match d.deal_date with | some x => .s x | none => .null),
   ("deal_size_usd", jsonOfOptInt d.deal_size_usd),
   ("pre_money_valuation_usd", jsonOfOptInt d.pre_money_valuation_usd),
   ("post_money_valuation_usd", jsonOfOptInt d.post_money_valuation_usd),
   ("lead_investors", .arr d.lead_investors),
   ("all_investors", .arr d.all_investors),
   ("deal_status", .s d.deal_status),
   ("deal_synopsis", .s d.deal_synopsis)]

/-- The `new_deal` event (`listener._check_deals`); the deal-size suffix in
the summary is present only when `deal_size_usd` is truthy. -/
def newDealEvent (cname : String) (d : Deal) : ChangeEvent :=
  { entity_type := "deal"
    entity_id := d.pitchbook_id
    entity_name := cname
    change_type := "new_deal"
    summary :=
      "New " ++ d.deal_type.value ++ " deal for " ++ cname ++
        (match d.deal_size_usd with
         | some v => if v = 0 then "" else ": $" ++ fmtInt v
         | none => "")
    details := dealDetails d }

/-- First block of `listener._detect_company_changes`: status transition. -/
def statusDiff (old new : Company) : List ChangeEvent :=
  if old.status ≠ new.status then [statusChangeEvent old new] else []

/-- Second block: cumulative funding change (both values non-null and
different). -/
def fundingDiff (old new : Company) : List ChangeEvent :=
  match new.total_raised_usd, old.total_raised_usd with
  | some b, some a => if b ≠ a then [fundingUpdateEvent old new a b] else []
  | _, _ => []

/-- Third block: employee-count change (both values non-null and different). -/
def employeeDiff (old new : Company) : List ChangeEvent :=
  match new.employee_count, old.employee_count with
  | some b, some a => if b ≠ a then [employeeCountEvent old new a b] else []
  | _, _ => []

/-- Fourth block: new-financing marker (`new.last_financing_date` truthy and
different from the old one). -/
def financingDiff (old new : Company) : List ChangeEvent :=
  match new.last_financing_date with
  | some d => if some d ≠ old.last_financing_date then [newFinancingEvent new d] else []
  | none => []

/-- `listener._detect_company_changes`: the four independent field-diff
blocks, emitted in source order. -/
def detectCompanyChanges (old new : Company) : List ChangeEvent :=
  statusDiff old new ++ fundingDiff old new ++ employeeDiff old new ++ financingDiff old new

/-- The callback fan-out loop inside `listener._emit`: each callback is
invoked in registration order; a raising callback is caught (logged) and the
loop continues. -/
def invokeAll : List Callback → ChangeEvent → List Action
  | [], _ => []
  | c :: rest, e => .invoke c.id e (raised (c.run e)) :: invokeAll rest e

/-- `listener._emit`: persist the event to the log first, then run every
callback; a failure of the log append itself escapes. -/
def emit (f : StoreFaults) (cbs : List Callback) (e : ChangeEvent) (st : Store) : StepRes :=
  match Store.recordChange f st e with
  | .error er => ⟨some er, st, []⟩
  | .ok st1 => ⟨none, st1, .record e :: invokeAll cbs e⟩

/-- Emit a list of events in order (the sequential `_emit` calls of
`_detect_company_changes`); an escaping exception stops the sequence. -/
def emitAll (f : StoreFaults) (cbs : List Callback) : List ChangeEvent → Store → StepRes
  | [], st => ⟨none, st, []⟩
  | e :: rest, st => (emit f cbs e st).andThen (emitAll f cbs rest)

/-- The per-deal loop of `listener._check_deals`: a fetched deal whose id is
already stored is skipped; otherwise it is upserted and a `new_deal` event
emitted.  `storedIds` is computed once, before the loop. -/
def processDeals (f : StoreFaults) (cbs : List Callback) (cname : String)
    (storedIds : List String) : List Deal → Store → StepRes
  | [], st => ⟨none, st, []⟩
  | d :: rest, st =>
      if storedIds.contains d.pitchbook_id then
        processDeals f cbs cname storedIds rest st
      else
        match Store.upsertDeal f st d with
        | .error er => ⟨some er, st, []⟩
        | .ok st1 => (emit f cbs (newDealEvent cname d) st1).andThen
            (processDeals f cbs cname storedIds rest)

/-- `listener._check_deals`. -/
def checkDeals (client : Client) (f : StoreFaults) (cbs : List Callback)
    (cid cname : String) (st : Store) : StepRes :=
  match client.getCompanyDeals cid with
  | .error er => ⟨some er, st, [.fetchDeals cid]⟩
  | .ok api =>
      .withTrace [.fetchDeals cid] <|
        match Store.getDealsForCompany f st cid with
        | .error er => ⟨some er, st, []⟩
        | .ok storedDeals =>
            processDeals f cbs cname (storedDeals.map (fun d => d.pitchbook_id)) api st

/-- `listener._check_company`: fetch fresh state; on first contact persist it
and emit one `new` event, otherwise diff then persist; then check deals. -/
def checkCompany (client : Client) (f : StoreFaults) (cbs : List Callback)
    (cid cname : String) (st : Store) : StepRes :=
  match client.getCompany cid with
  | .error er => ⟨some er, st, [.fetchCompany cid]⟩
  | .ok fresh =>
      .withTrace [.fetchCompany cid] <|
        match Store.getCompany f st cid with
        | .error er => ⟨some er, st, []⟩
        | .ok none =>
            match Store.upsertCompany f st fresh with
            | .error er => ⟨some er, st, []⟩
            | .ok st1 =>
                (emit f cbs (newCompanyEvent cid cname) st1).andThen
                  (checkDeals client f cbs cid cname)
        | .ok (some stored) =>
            (emitAll f cbs (detectCompanyChanges stored fresh) st).andThen (fun st2 =>
              match Store.upsertCompany f st2 fresh with
              | .error er => ⟨some er, st2, []⟩
              | .ok st1 => checkDeals client f cbs cid cname st1)

/-- The per-target loop of `listener._poll_cycle`: each `_check_company` call
sits in a `try`/`except Exception` block, so whatever it raises is logged and
swallowed and the loop continues from the mutated store. -/
def checkAllCompanies (client : Client) (f : StoreFaults) (cbs : List Callback) :
    List (String × String) → Store → StepRes
  | [], st => ⟨none, st, []⟩
  | (cid, cname) :: rest, st =>
      let r := checkCompany client f cbs cid cname st
      let r2 := checkAllCompanies client f cbs rest r.store
      ⟨r2.err, r2.store, r.trace ++ r2.trace⟩

/-- `listener._poll_cycle`: read the watch list (uncaught if it raises); if
empty, return immediately; otherwise check every watched company. -/
def pollCycle (client : Client) (f : StoreFaults) (cbs : List Callback)
    (st : Store) : StepRes :=
  match Store.listWatched f st with
  | .error er => ⟨some er, st, []⟩
  | .ok watched =>
      if watched.isEmpty then ⟨none, st, []⟩
      else checkAllCompanies client f cbs watched st

/-- The listener's `_running` flag (`__init__` sets it to `False`). -/
structure ListenerState where
  running : Bool
deriving DecidableEq, Repr

/-- The flag state right after `PitchBookListener.__init__`. -/
def initListener : ListenerState := ⟨false⟩

/-- `listener.stop`: set `_running` to `False`. -/
def stop (l : ListenerState) : ListenerState := { l with running := false }

/-- The first statement of `listener.run`: unconditionally set `_running` to
`True`. -/
def runEntry (l : ListenerState) : ListenerState := { l with running := true }

/-- The `while self._running` loop of `run`, counting executed poll cycles.
`stopAt k` says whether `stop()` is called during iteration `k` (during the
cycle or the sleep); it is observed at the next loop-condition check.  `fuel`
bounds how many iterations we observe.  The cycle body itself is irrelevant
to the flag protocol. -/
def runLoop (stopAt : Nat → Bool) : Nat → Nat → ListenerState → Nat
  | 0, _, _ => 0
  | fuel + 1, k, l =>
      if l.running then
        1 + runLoop stopAt fuel (k + 1) (if stopAt k then stop l else l)
      else 0

/-- `listener.run` from a given prior flag state: set the flag, then loop. -/
def runModel (fuel : Nat) (l : ListenerState) (stopAt : Nat → Bool) : Nat :=
  runLoop stopAt fuel 0 (runEntry l)

/-! ### Derived observation helpers -/

/-- The change events recorded (appended to the log) along a trace. -/
def recordsOf (tr : List Action) : List ChangeEvent :=
  tr.filterMap (fun a => match a with | .record e => some e | _ => none)

/-- How many events of a given change type a trace records. -/
def countTraceType (tr : List Action) (t : String) : Nat :=
  (recordsOf tr).countP (fun e => e.change_type == t)

/-- How many events of a given change type an event list holds. -/
def countType (es : List ChangeEvent) (t : String) : Nat :=
  es.countP (fun e => e.change_type == t)

/-- The change types produced by field-level diffing. -/
def fieldDiffTypes : List String :=
  ["status_change", "funding_update", "employee_count_change", "new_financing"]

/-- The per-event trace fragment of a successful `_emit`. -/
def emitTrace (cbs : List Callback) : List ChangeEvent → List Action
  | [] => []
  | e :: rest => (.record e :: invokeAll cbs e) ++ emitTrace cbs rest

/-! ### Concrete fixtures (used to instantiate the theorems) -/

/-- An empty store. -/
def storeEmpty : Store := ⟨[], [], [], []⟩

/-- A store with one watched company and nothing else. -/
def storeWatchedOne : Store := ⟨[], [], [], [("C-1", "Acme")]⟩

/-- A store with two watched companies and nothing else. -/
def storeWatchedTwo : Store := ⟨[], [], [], [("C-1", "Acme"), ("C-2", "Beta")]⟩

/-- A company as first fetched. -/
def acmeOld : Company := { pitchbook_id := "C-1", name := "Acme" }

/-- The same company after a financing round and an IPO. -/
def acmeNew : Company :=
  { pitchbook_id := "C-1"
    name := "Acme"
    status := .publicly
    total_raised_usd := some 5000000
    last_financing_date := some "2024-01-15"
    last_financing_deal_type := "series_a"
    last_financing_size_usd := some 5000000 }

/-- A second company. -/
def betaCo : Company := { pitchbook_id := "C-2", name := "Beta" }

/-- A seed deal. -/
def dealOne : Deal := { pitchbook_id := "D-1", company_id := "C-1", deal_type := .seed }

/-- A store that already holds `dealOne` and nothing else. -/
def storeOneDeal : Store := ⟨[], [dealOne], [], []⟩

/-- A deal with the same id as `dealOne` but different field values. -/
def dealOneAlt : Deal :=
  { pitchbook_id := "D-1", company_id := "C-1", deal_type := .seed,
    deal_size_usd := some 7000000 }

/-- A series-A deal. -/
def dealTwo : Deal :=
  { pitchbook_id := "D-2", company_id := "C-1", deal_type := .series_a,
    deal_size_usd := some 20000000 }

/-- A series-B deal. -/
def dealThree : Deal := { pitchbook_id := "D-3", company_id := "C-1", deal_type := .series_b }

/-- A client that knows `C-1` (as `acmeNew`) with one deal, and fails on
every other id. -/
def clientAcme : Client :=
  ⟨fun cid => if cid = "C-1" then .ok acmeNew else .error .clientError,
   fun cid => if cid = "C-1" then .ok [dealTwo] else .error .clientError⟩

/-- A client whose `get_company` raises for `C-1` but succeeds for `C-2`. -/
def clientFirstBroken : Client :=
  ⟨fun cid => if cid = "C-2" then .ok betaCo else .error .clientError,
   fun _ => .ok []⟩

/-- A client used at the `_check_deals` level: three deals fetched. -/
def clientThreeDeals : Client :=
  ⟨fun _ => .error .clientError, fun _ => .ok [dealOne, dealTwo, dealThree]⟩

/-- A client used at the `_check_deals` level: a changed duplicate of a
stored deal plus one genuinely new deal. -/
def clientAltDeals : Client :=
  ⟨fun _ => .error .clientError, fun _ => .ok [dealOneAlt, dealTwo]⟩

/-- An observer callback that always raises. -/
def cbBoom : Callback := ⟨0, fun _ => .error ()⟩

/-- An observer callback that always succeeds. -/
def cbQuiet : Callback := ⟨1, fun _ => .ok ()⟩

/-- A sample event to emit. -/
def evSample : ChangeEvent := newCompanyEvent "C-1" "Acme"

/-- Faults: `upsert_company` raises a store-layer error. -/
def faultsUpsert : StoreFaults := { onUpsertCompany := true }

/-- Faults: `list_watched_companies` raises a store-layer error. -/
def faultsListW : StoreFaults := { onListWatched := true }

/-- A watched id is settled in a store (w.r.t. a client): whenever the client
yields a company for it, the stored row is exactly the persisted dump of
that company — or the stored row is one `get_company` cannot parse, which a
check then raises on without touching anything.  Every per-company check
leaves its target settled, which is what makes a second cycle with unchanged
provider data diff-silent. -/
def settled (client : Client) (st : Store) (cid : String) : Prop :=
  ∀ fresh, client.getCompany cid = .ok fresh →
    (findCompanyRow st.companies cid = some (companyToRow fresh)
      ∨ ∃ row, findCompanyRow st.companies cid = some row ∧ rowToCompany row = none)

/-! ### Basic lemmas -/

@[simp] theorem orEmpty_id (s : String) : orEmpty s = s := by
  unfold orEmpty; split <;> simp_all

theorem statusOfString_value (s : CompanyStatus) :
    statusOfString s.value = some s := by
  cases s <;> decide

theorem statusValue_ne_empty (s : CompanyStatus) : ¬s.value = "" := by
  cases s <;> decide

/-- `get_company` after `upsert_company` reconstructs the snapshot exactly. -/
theorem rowToCompany_companyToRow (c : Company) :
    rowToCompany (companyToRow c) = some c := by
  unfold rowToCompany companyToRow
  rw [if_neg (statusValue_ne_empty c.status), statusOfString_value]
  simp

@[simp] theorem recordChange_noFaults (st : Store) (e : ChangeEvent) :
    Store.recordChange noFaults st e = .ok { st with events := st.events ++ [e] } := rfl

@[simp] theorem upsertCompany_noFaults (st : Store) (c : Company) :
    Store.upsertCompany noFaults st c =
      .ok { st with companies := upsertRow st.companies (companyToRow c) } := rfl

@[simp] theorem upsertDeal_noFaults (st : Store) (d : Deal) :
    Store.upsertDeal noFaults st d =
      .ok { st with deals := upsertDealList st.deals d } := rfl

@[simp] theorem getDeals_noFaults (st : Store) (cid : String) :
    Store.getDealsForCompany noFaults st cid =
      .ok (st.deals.filter (fun d => d.company_id == cid)) := rfl

@[simp] theorem listWatched_noFaults (st : Store) :
    Store.listWatched noFaults st = .ok st.watched := rfl

@[simp] theorem andThen_ok (st : Store) (tr : List Action) (k : Store → StepRes) :
    (StepRes.mk none st tr).andThen k =
      ⟨(k st).err, (k st).store, tr ++ (k st).trace⟩ := rfl

@[simp] theorem andThen_err (er : Err) (st : Store) (tr : List Action) (k : Store → StepRes) :
    (StepRes.mk (some er) st tr).andThen k = ⟨some er, st, tr⟩ := rfl

@[simp] theorem withTrace_mk (pre : List Action) (er : Option Err) (st : Store)
    (tr : List Action) :
    StepRes.withTrace pre ⟨er, st, tr⟩ = ⟨er, st, pre ++ tr⟩ := rfl

@[simp] theorem recordsOf_nil : recordsOf [] = [] := rfl

@[simp] theorem recordsOf_cons_record (e : ChangeEvent) (tr : List Action) :
    recordsOf (.record e :: tr) = e :: recordsOf tr := rfl

@[simp] theorem recordsOf_cons_invoke (i : Nat) (e : ChangeEvent) (b : Bool)
    (tr : List Action) : recordsOf (.invoke i e b :: tr) = recordsOf tr := rfl

@[simp] theorem recordsOf_cons_fetchCompany (cid : String) (tr : List Action) :
    recordsOf (.fetchCompany cid :: tr) = recordsOf tr := rfl

@[simp] theorem recordsOf_cons_fetchDeals (cid : String) (tr : List Action) :
    recordsOf (.fetchDeals cid :: tr) = recordsOf tr := rfl

@[simp] theorem recordsOf_append (t1 t2 : List Action) :
    recordsOf (t1 ++ t2) = recordsOf t1 ++ recordsOf t2 := by
  simp [recordsOf]

@[simp] theorem recordsOf_invokeAll (cbs : List Callback) (e : ChangeEvent) :
    recordsOf (invokeAll cbs e) = [] := by
  induction cbs with
  | nil => rfl
  | cons c rest ih => simp [invokeAll, ih]

@[simp] theorem countTraceType_append (t1 t2 : List Action) (t : String) :
    countTraceType (t1 ++ t2) t = countTraceType t1 t + countTraceType t2 t := by
  simp [countTraceType, List.countP_append]

theorem emit_noFaults (cbs : List Callback) (e : ChangeEvent) (st : Store) :
    emit noFaults cbs e st =
      ⟨none, { st with events := st.events ++ [e] }, .record e :: invokeAll cbs e⟩ := rfl

/-- Closed form of `emitAll` on a healthy store: nothing escapes, the events
are appended to the log in order, and the trace interleaves each record with
its callback invocations. -/
theorem emitAll_noFaults (cbs : List Callback) :
    ∀ (es : List ChangeEvent) (st : Store),
      emitAll noFaults cbs es st =
        ⟨none, { st with events := st.events ++ es }, emitTrace cbs es⟩ := by
  intro es
  induction es with
  | nil => intro st; simp [emitAll, emitTrace]
  | cons e rest ih =>
      intro st
      simp [emitAll, emit_noFaults, ih, emitTrace]

@[simp] theorem recordsOf_emitTrace (cbs : List Callback) (es : List ChangeEvent) :
    recordsOf (emitTrace cbs es) = es := by
  induction es with
  | nil => rfl
  | cons e rest ih => simp [emitTrace, ih]

@[simp] theorem getCompany_noFaults (st : Store) (cid : String) :
    Store.getCompany noFaults st cid =
      match findCompanyRow st.companies cid with
      | none => .ok none
      | some row =>
          match rowToCompany row with
          | some c => .ok (some c)
          | none => .error .storeError := rfl

/-- Closed form of the deal loop on a healthy store: precisely the fetched
deals whose id is not among `sIds` are upserted (in order) and produce one
`new_deal` event each. -/
theorem processDeals_noFaults (cbs : List Callback) (cname : String)
    (sIds : List String) :
    ∀ (api : List Deal) (st : Store),
      processDeals noFaults cbs cname sIds api st =
        ⟨none,
         { st with
             deals :=
               (api.filter (fun d => !(sIds.contains d.pitchbook_id))).foldl
                 upsertDealList st.deals
             events :=
               st.events ++
                 (api.filter (fun d => !(sIds.contains d.pitchbook_id))).map
                   (newDealEvent cname) },
         emitTrace cbs
           ((api.filter (fun d => !(sIds.contains d.pitchbook_id))).map
             (newDealEvent cname))⟩ := by
  intro api
  induction api with
  | nil => intro st; simp [processDeals, emitTrace]
  | cons d rest ih =>
      intro st
      by_cases h : d.pitchbook_id ∈ sIds
      · have hb : sIds.contains d.pitchbook_id = true := by simpa using h
        simp [processDeals, hb, h, ih]
      · have hb : sIds.contains d.pitchbook_id = false := by simpa using h
        simp [processDeals, hb, h, ih, emit_noFaults, emitTrace]

/-- Closed form of `_check_deals` on a healthy store. -/
theorem checkDeals_noFaults (client : Client) (cbs : List Callback)
    (cid cname : String) (st : Store) (api : List Deal)
    (hfetch : client.getCompanyDeals cid = .ok api) :
    checkDeals client noFaults cbs cid cname st =
      ⟨none,
       { st with
           deals := (api.filter (fun d =>
               !(((st.deals.filter (fun x => x.company_id == cid)).map
                   (fun x => x.pitchbook_id)).contains d.pitchbook_id))).foldl
             upsertDealList st.deals
           events := st.events ++ (api.filter (fun d =>
               !(((st.deals.filter (fun x => x.company_id == cid)).map
                   (fun x => x.pitchbook_id)).contains d.pitchbook_id))).map
             (newDealEvent cname) },
       .fetchDeals cid :: emitTrace cbs ((api.filter (fun d =>
           !(((st.deals.filter (fun x => x.company_id == cid)).map
               (fun x => x.pitchbook_id)).contains d.pitchbook_id))).map
         (newDealEvent cname))⟩ := by
  simp [checkDeals, hfetch, processDeals_noFaults]

/-- Looking up any id in the map-replacement pass of an upsert. -/
theorem findDeal_replaceMap (d : Deal) (pid : String) :
    ∀ ds : List Deal,
      findDeal (ds.map (fun x => if x.pitchbook_id == d.pitchbook_id then d else x)) pid
        = if d.pitchbook_id = pid then
            (if ds.any (fun y => y.pitchbook_id == d.pitchbook_id) then some d
             else findDeal ds pid)
          else findDeal ds pid := by
  intro ds
  induction ds with
  | nil => by_cases hdp : d.pitchbook_id = pid <;> simp [findDeal, hdp]
  | cons x rest ih =>
      by_cases hx : x.pitchbook_id = d.pitchbook_id <;>
        by_cases hdp : d.pitchbook_id = pid <;>
          by_cases hxp : x.pitchbook_id = pid <;>
            simp_all [findDeal, List.find?_cons, List.any_cons]

/-- After upserting `d`, looking up `d`'s id finds `d`. -/
theorem findDeal_upsert_self (ds : List Deal) (d : Deal) :
    findDeal (upsertDealList ds d) d.pitchbook_id = some d := by
  unfold upsertDealList
  split
  next hany =>
    rw [findDeal_replaceMap]
    simp [hany]
  next hany =>
    have hnone : findDeal ds d.pitchbook_id = none := by
      unfold findDeal
      rw [List.find?_eq_none]
      intro x hx hc
      exact hany (List.any_eq_true.mpr ⟨x, hx, hc⟩)
    unfold findDeal at hnone ⊢
    rw [List.find?_append, hnone]
    simp [List.find?_cons_of_pos]

/-- Upserting `d` does not disturb lookups of other ids. -/
theorem findDeal_upsert_other (ds : List Deal) (d : Deal) (pid : String)
    (h : d.pitchbook_id ≠ pid) :
    findDeal (upsertDealList ds d) pid = findDeal ds pid := by
  unfold upsertDealList
  split
  · rw [findDeal_replaceMap]
    simp [h]
  · unfold findDeal
    rw [List.find?_append]
    have : List.find? (fun r => r.pitchbook_id == pid) [d] = none := by
      simp [List.find?_cons_of_neg, h]
    rw [this]
    cases List.find? (fun r => r.pitchbook_id == pid) ds <;> rfl

/-- A sequence of upserts of deals with other ids does not disturb a lookup. -/
theorem findDeal_foldl_preserve :
    ∀ (L : List Deal) (ds : List Deal) (pid : String),
      (∀ y ∈ L, y.pitchbook_id ≠ pid) →
      findDeal (L.foldl upsertDealList ds) pid = findDeal ds pid := by
  intro L
  induction L with
  | nil => intro ds pid _; rfl
  | cons x rest ih =>
      intro ds pid h
      have hx : x.pitchbook_id ≠ pid := h x (by simp)
      have hrest : ∀ y ∈ rest, y.pitchbook_id ≠ pid := fun y hy => h y (by simp [hy])
      simpa [List.foldl_cons, findDeal_upsert_other ds x pid hx] using
        ih (upsertDealList ds x) pid hrest

/-- After upserting a list of deals with pairwise-distinct ids, each of them
is found under its id. -/
theorem findDeal_foldl_mem :
    ∀ (L : List Deal) (ds : List Deal) (d : Deal),
      d ∈ L → (L.map (fun y => y.pitchbook_id)).Nodup →
      findDeal (L.foldl upsertDealList ds) d.pitchbook_id = some d := by
  intro L
  induction L with
  | nil => intro ds d hd; simp at hd
  | cons x rest ih =>
      intro ds d hd hnd
      have hnd' := hnd
      rw [List.map_cons, List.nodup_cons] at hnd'
      rcases List.mem_cons.mp hd with hdx | hdr
      · subst hdx
        have hrest : ∀ y ∈ rest, y.pitchbook_id ≠ d.pitchbook_id := by
          intro y hy hc
          exact hnd'.1 (hc ▸ List.mem_map_of_mem (fun z => z.pitchbook_id) hy)
        simpa [List.foldl_cons, findDeal_foldl_preserve rest (upsertDealList ds d)
          d.pitchbook_id hrest] using findDeal_upsert_self ds d
      · simpa [List.foldl_cons] using ih (upsertDealList ds x) d hdr hnd'.2

/-- Looking up any id in the map-replacement pass of a company upsert. -/
theorem findRow_replaceMap (row : CompanyRow) (pid : String) :
    ∀ rows : List CompanyRow,
      findCompanyRow (rows.map (fun r =>
          if r.pitchbook_id == row.pitchbook_id then row else r)) pid
        = if row.pitchbook_id = pid then
            (if rows.any (fun r => r.pitchbook_id == row.pitchbook_id) then some row
             else findCompanyRow rows pid)
          else findCompanyRow rows pid := by
  intro rows
  induction rows with
  | nil => by_cases hdp : row.pitchbook_id = pid <;> simp [findCompanyRow, hdp]
  | cons x rest ih =>
      by_cases hx : x.pitchbook_id = row.pitchbook_id <;>
        by_cases hdp : row.pitchbook_id = pid <;>
          by_cases hxp : x.pitchbook_id = pid <;>
            simp_all [findCompanyRow, List.find?_cons, List.any_cons]

/-- After upserting a company row, looking up its id finds it. -/
theorem findRow_upsert_self (rows : List CompanyRow) (row : CompanyRow) :
    findCompanyRow (upsertRow rows row) row.pitchbook_id = some row := by
  unfold upsertRow
  split
  next hany =>
    rw [findRow_replaceMap]
    simp [hany]
  next hany =>
    have hnone : findCompanyRow rows row.pitchbook_id = none := by
      unfold findCompanyRow
      rw [List.find?_eq_none]
      intro x hx hc
      exact hany (List.any_eq_true.mpr ⟨x, hx, hc⟩)
    unfold findCompanyRow at hnone ⊢
    rw [List.find?_append, hnone]
    simp [List.find?_cons_of_pos]

/-- Upserting a company row does not disturb lookups of other ids. -/
theorem findRow_upsert_other (rows : List CompanyRow) (row : CompanyRow) (pid : String)
    (h : row.pitchbook_id ≠ pid) :
    findCompanyRow (upsertRow rows row) pid = findCompanyRow rows pid := by
  unfold upsertRow
  split
  · rw [findRow_replaceMap]
    simp [h]
  · unfold findCompanyRow
    rw [List.find?_append]
    have : List.find? (fun r => r.pitchbook_id == pid) [row] = none := by
      simp [List.find?_cons_of_neg, h]
    rw [this]
    cases List.find? (fun r => r.pitchbook_id == pid) rows <;> rfl

/-! ### Counting events by change type -/

@[simp] theorem countType_nil (t : String) : countType [] t = 0 := rfl

@[simp] theorem countType_append (l1 l2 : List ChangeEvent) (t : String) :
    countType (l1 ++ l2) t = countType l1 t + countType l2 t := by
  simp [countType, List.countP_append]

@[simp] theorem countType_cons (e : ChangeEvent) (l : List ChangeEvent) (t : String) :
    countType (e :: l) t = countType l t + (if e.change_type = t then 1 else 0) := by
  by_cases h : e.change_type = t <;> simp [countType, List.countP_cons, h]

theorem countType_statusDiff (old new : Company) (t : String) (h : t ≠ "status_change") :
    countType (statusDiff old new) t = 0 := by
  unfold statusDiff
  split <;> simp [statusChangeEvent, Ne.symm h]

theorem countType_fundingDiff_ne (old new : Company) (t : String)
    (h : t ≠ "funding_update") : countType (fundingDiff old new) t = 0 := by
  rcases hn : new.total_raised_usd with _ | b <;> rcases ho : old.total_raised_usd with _ | a
  · simp [fundingDiff, hn, ho]
  · simp [fundingDiff, hn, ho]
  · simp [fundingDiff, hn, ho]
  · by_cases hab : b = a <;> simp [fundingDiff, hn, ho, hab, fundingUpdateEvent, Ne.symm h]

theorem countType_employeeDiff_ne (old new : Company) (t : String)
    (h : t ≠ "employee_count_change") : countType (employeeDiff old new) t = 0 := by
  rcases hn : new.employee_count with _ | b <;> rcases ho : old.employee_count with _ | a
  · simp [employeeDiff, hn, ho]
  · simp [employeeDiff, hn, ho]
  · simp [employeeDiff, hn, ho]
  · by_cases hab : b = a <;> simp [employeeDiff, hn, ho, hab, employeeCountEvent, Ne.symm h]

theorem countType_financingDiff_ne (old new : Company) (t : String)
    (h : t ≠ "new_financing") : countType (financingDiff old new) t = 0 := by
  rcases hn : new.last_financing_date with _ | d
  · simp [financingDiff, hn]
  · by_cases hd : some d = old.last_financing_date
    · simp [financingDiff, hn, hd.symm]
    · simp [financingDiff, hn, hd, newFinancingEvent, Ne.symm h]

theorem countType_fundingDiff (old new : Company) :
    countType (fundingDiff old new) "funding_update"
      = if old.total_raised_usd ≠ none ∧ new.total_raised_usd ≠ none ∧
            old.total_raised_usd ≠ new.total_raised_usd then 1 else 0 := by
  rcases hn : new.total_raised_usd with _ | b <;> rcases ho : old.total_raised_usd with _ | a
  · simp [fundingDiff, hn, ho]
  · simp [fundingDiff, hn, ho]
  · simp [fundingDiff, hn, ho]
  · by_cases hab : b = a <;> simp [fundingDiff, hn, ho, fundingUpdateEvent, hab, eq_comm]

theorem countType_employeeDiff (old new : Company) :
    countType (employeeDiff old new) "employee_count_change"
      = if old.employee_count ≠ none ∧ new.employee_count ≠ none ∧
            old.employee_count ≠ new.employee_count then 1 else 0 := by
  rcases hn : new.employee_count with _ | b <;> rcases ho : old.employee_count with _ | a
  · simp [employeeDiff, hn, ho]
  · simp [employeeDiff, hn, ho]
  · simp [employeeDiff, hn, ho]
  · by_cases hab : b = a <;> simp [employeeDiff, hn, ho, employeeCountEvent, hab, eq_comm]

theorem countType_financingDiff (old new : Company) :
    countType (financingDiff old new) "new_financing"
      = if new.last_financing_date ≠ none ∧
            new.last_financing_date ≠ old.last_financing_date then 1 else 0 := by
  rcases hn : new.last_financing_date with _ | d
  · simp [financingDiff, hn]
  · by_cases hd : some d = old.last_financing_date
    · simp [financingDiff, hn, hd.symm]
    · simp [financingDiff, hn, hd, newFinancingEvent]

theorem countType_mapNewDeal (cname : String) (L : List Deal) (t : String)
    (h : t ≠ "new_deal") : countType (L.map (newDealEvent cname)) t = 0 := by
  induction L with
  | nil => simp
  | cons d rest ih => simp [newDealEvent, ih, Ne.symm h]

/-! ### Claim C1 -/

/-- C1: for a watched entity with no stored snapshot, one successful
per-entity check persists the fetched state as the snapshot and records
exactly one `new` event, and records no field-level diff events. -/
theorem checkCompany_first_contact
    (client : Client) (cbs : List Callback) (st : Store) (cid cname : String)
    (fresh : Company) (api : List Deal)
    (hfetch : client.getCompany cid = .ok fresh)
    (hid : fresh.pitchbook_id = cid)
    (habsent : findCompanyRow st.companies cid = none)
    (hdeals : client.getCompanyDeals cid = .ok api) :
    (checkCompany client noFaults cbs cid cname st).err = none
      ∧ findCompanyRow
          (checkCompany client noFaults cbs cid cname st).store.companies cid
          = some (companyToRow fresh)
      ∧ countTraceType (checkCompany client noFaults cbs cid cname st).trace "new" = 1
      ∧ ∀ t ∈ fieldDiffTypes,
          countTraceType (checkCompany client noFaults cbs cid cname st).trace t = 0 := by
  simp only [checkCompany, hfetch, getCompany_noFaults, habsent, upsertCompany_noFaults,
    emit_noFaults, andThen_ok, withTrace_mk]
  rw [checkDeals_noFaults _ _ _ _ _ _ hdeals]
  refine ⟨rfl, ?_, ?_, ?_⟩
  · have hpid : (companyToRow fresh).pitchbook_id = cid := by
      simp [companyToRow, hid]
    calc findCompanyRow (upsertRow st.companies (companyToRow fresh)) cid
        = findCompanyRow (upsertRow st.companies (companyToRow fresh))
            (companyToRow fresh).pitchbook_id := by rw [hpid]
      _ = some (companyToRow fresh) := findRow_upsert_self _ _
  · simp [countTraceType, newCompanyEvent, newDealEvent, countType_mapNewDeal]
  · intro t ht
    simp only [fieldDiffTypes, List.mem_cons, List.not_mem_nil, or_false] at ht
    rcases ht with rfl | rfl | rfl | rfl <;>
      simp [countTraceType, newCompanyEvent, newDealEvent, countType_mapNewDeal]

/-- C1 witness: the theorem instantiated at an empty store, one fetched
company and one fetched deal. -/
theorem checkCompany_first_contact_witness :
    (checkCompany clientAcme noFaults [] "C-1" "Acme" storeEmpty).err = none
      ∧ findCompanyRow
          (checkCompany clientAcme noFaults [] "C-1" "Acme" storeEmpty).store.companies "C-1"
          = some (companyToRow acmeNew)
      ∧ countTraceType
          (checkCompany clientAcme noFaults [] "C-1" "Acme" storeEmpty).trace "new" = 1
      ∧ ∀ t ∈ fieldDiffTypes,
          countTraceType
            (checkCompany clientAcme noFaults [] "C-1" "Acme" storeEmpty).trace t = 0 :=
  checkCompany_first_contact clientAcme [] storeEmpty "C-1" "Acme" acmeNew [dealTwo]
    rfl (by decide) (by decide) rfl

/-! ### Claim C2 -/

theorem fetch_mem_checkCompany (client : Client) (f : StoreFaults) (cbs : List Callback)
    (cid cname : String) (st : Store) :
    Action.fetchCompany cid ∈ (checkCompany client f cbs cid cname st).trace := by
  unfold checkCompany
  rcases h : client.getCompany cid with er | fresh
  · simp
  · simp [StepRes.withTrace]

theorem checkAllCompanies_err_none (client : Client) (f : StoreFaults)
    (cbs : List Callback) :
    ∀ (l : List (String × String)) (st : Store),
      (checkAllCompanies client f cbs l st).err = none := by
  intro l
  induction l with
  | nil => intro st; rfl
  | cons p rest ih =>
      intro st
      obtain ⟨cid, cname⟩ := p
      simp [checkAllCompanies, ih]

theorem fetch_mem_checkAll (client : Client) (f : StoreFaults) (cbs : List Callback) :
    ∀ (l : List (String × String)) (st : Store), ∀ p ∈ l,
      Action.fetchCompany p.1 ∈ (checkAllCompanies client f cbs l st).trace := by
  intro l
  induction l with
  | nil => intro st p hp; simp at hp
  | cons q rest ih =>
      intro st p hp
      rcases List.mem_cons.mp hp with rfl | hp'
      · obtain ⟨cid, cname⟩ := p
        simp only [checkAllCompanies, List.mem_append]
        exact Or.inl (fetch_mem_checkCompany client f cbs cid cname st)
      · obtain ⟨cid, cname⟩ := q
        simp only [checkAllCompanies, List.mem_append]
        exact Or.inr (ih _ p hp')

/-- C2: whatever any single entity check raises (provider error, store error,
bad stored data), `_poll_cycle` catches it at the per-target boundary, still
fetches every watched target, and the cycle itself raises nothing (given the
watch-list read itself works). -/
theorem pollCycle_entity_isolation
    (client : Client) (f : StoreFaults) (cbs : List Callback) (st : Store)
    (hw : f.onListWatched = false) :
    (pollCycle client f cbs st).err = none
      ∧ ∀ p ∈ st.watched,
          Action.fetchCompany p.1 ∈ (pollCycle client f cbs st).trace := by
  have hlw : Store.listWatched f st = .ok st.watched := by
    simp [Store.listWatched, hw]
  unfold pollCycle
  rw [hlw]
  cases hE : st.watched.isEmpty with
  | true =>
      have : st.watched = [] := by simpa using hE
      simp [this]
  | false =>
      simp only [hE, Bool.false_eq_true, if_false]
      exact ⟨checkAllCompanies_err_none client f cbs st.watched st,
             fun p hp => fetch_mem_checkAll client f cbs st.watched st p hp⟩

/-- C2 witness: two watched targets, fetching the first raises; the cycle
raises nothing and both targets are still fetched. -/
theorem pollCycle_entity_isolation_witness :
    (pollCycle clientFirstBroken noFaults [] storeWatchedTwo).err = none
      ∧ ∀ p ∈ storeWatchedTwo.watched,
          Action.fetchCompany p.1 ∈ (pollCycle clientFirstBroken noFaults [] storeWatchedTwo).trace :=
  pollCycle_entity_isolation clientFirstBroken noFaults [] storeWatchedTwo rfl

/-! ### Claim C3 -/

/-- C3: in `_check_deals`, exactly the fetched deals whose id is absent from
the stored ids for that company produce one `new_deal` event each, in fetch
order and none for already-stored ids; each such deal is persisted. -/
theorem checkDeals_new_items
    (client : Client) (cbs : List Callback) (cid cname : String) (st : Store)
    (api : List Deal)
    (hfetch : client.getCompanyDeals cid = .ok api)
    (hnodup : (api.map (fun d => d.pitchbook_id)).Nodup) :
    (checkDeals client noFaults cbs cid cname st).err = none
      ∧ recordsOf (checkDeals client noFaults cbs cid cname st).trace
          = (api.filter (fun d =>
              !(((st.deals.filter (fun x => x.company_id == cid)).map
                  (fun x => x.pitchbook_id)).contains d.pitchbook_id))).map
            (newDealEvent cname)
      ∧ ∀ d ∈ api,
          d.pitchbook_id ∉
              (st.deals.filter (fun x => x.company_id == cid)).map
                (fun x => x.pitchbook_id) →
          findDeal (checkDeals client noFaults cbs cid cname st).store.deals
              d.pitchbook_id = some d := by
  rw [checkDeals_noFaults _ _ _ _ _ _ hfetch]
  refine ⟨rfl, by simp, ?_⟩
  intro d hd hnew
  apply findDeal_foldl_mem
  · exact List.mem_filter.mpr ⟨hd, by simp [hnew]⟩
  · exact List.Nodup.sublist ((List.filter_sublist _).map _) hnodup

/-- C3 witness: stored deals are D-1; the fetch returns D-1, D-2, D-3;
exactly two `new_deal` events fire (for D-2 and D-3) and both are stored. -/
theorem checkDeals_new_items_witness :
    recordsOf (checkDeals clientThreeDeals noFaults [] "C-1" "Acme" storeOneDeal).trace
        = [newDealEvent "Acme" dealTwo, newDealEvent "Acme" dealThree]
      ∧ findDeal (checkDeals clientThreeDeals noFaults [] "C-1" "Acme" storeOneDeal).store.deals
          "D-2" = some dealTwo
      ∧ findDeal (checkDeals clientThreeDeals noFaults [] "C-1" "Acme" storeOneDeal).store.deals
          "D-3" = some dealThree := by
  obtain ⟨h1, h2, h3⟩ := checkDeals_new_items clientThreeDeals [] "C-1" "Acme" storeOneDeal
    [dealOne, dealTwo, dealThree] rfl (by decide)
  refine ⟨?_, ?_, ?_⟩
  · rw [h2]; rfl
  · exact h3 dealTwo (by decide) (by decide)
  · exact h3 dealThree (by decide) (by decide)

/-! ### Claim C4 -/

/-- C4: `funding_update` fires (exactly once) precisely when old and new
totals are both non-null and differ, `employee_count_change` likewise for
the employee counts; a null-to-value transition of either field emits
nothing for that field. -/
theorem detect_funding_employee_null_guard (old new : Company) :
    countType (detectCompanyChanges old new) "funding_update"
        = (if old.total_raised_usd ≠ none ∧ new.total_raised_usd ≠ none ∧
              old.total_raised_usd ≠ new.total_raised_usd then 1 else 0)
      ∧ countType (detectCompanyChanges old new) "employee_count_change"
        = (if old.employee_count ≠ none ∧ new.employee_count ≠ none ∧
              old.employee_count ≠ new.employee_count then 1 else 0) := by
  constructor
  · simp only [detectCompanyChanges, countType_append]
    rw [countType_statusDiff old new _ (by decide), countType_fundingDiff,
        countType_employeeDiff_ne old new _ (by decide),
        countType_financingDiff_ne old new _ (by decide)]
    simp
  · simp only [detectCompanyChanges, countType_append]
    rw [countType_statusDiff old new _ (by decide),
        countType_fundingDiff_ne old new _ (by decide), countType_employeeDiff,
        countType_financingDiff_ne old new _ (by decide)]
    simp

/-- C4 witness: stored funding and headcount are null, fresh funding is
$5,000,000 — the null-to-value transition emits zero events for both
fields. -/
theorem detect_funding_employee_null_guard_witness :
    countType (detectCompanyChanges acmeOld acmeNew) "funding_update" = 0
      ∧ countType (detectCompanyChanges acmeOld acmeNew) "employee_count_change" = 0 := by
  have h := detect_funding_employee_null_guard acmeOld acmeNew
  constructor
  · rw [h.1]; decide
  · rw [h.2]; decide

/-! ### Claim C5 -/

theorem invokeAll_eq_map (cbs : List Callback) (e : ChangeEvent) :
    invokeAll cbs e = cbs.map (fun c => .invoke c.id e (raised (c.run e))) := by
  induction cbs with
  | nil => rfl
  | cons c rest ih => simp [invokeAll, ih]

/-- C5: `_emit` appends the event to the persistent log first (`record` is
the head of the trace, before any `invoke`), then invokes every registered
callback in registration order; a raising callback is caught (the loop
reaches every later callback, nothing escapes) and the event stays in the
log whatever the callbacks do. -/
theorem emit_durable_ordered_isolated
    (f : StoreFaults) (cbs : List Callback) (e : ChangeEvent) (st : Store)
    (h : f.onRecordChange = false) :
    (emit f cbs e st).err = none
      ∧ (emit f cbs e st).store.events = st.events ++ [e]
      ∧ (emit f cbs e st).trace.head? = some (Action.record e)
      ∧ (emit f cbs e st).trace.tail
          = cbs.map (fun c => Action.invoke c.id e (raised (c.run e))) := by
  have hrc : Store.recordChange f st e = .ok { st with events := st.events ++ [e] } := by
    simp [Store.recordChange, h]
  simp [emit, hrc, invokeAll_eq_map]

/-- C5 witness: two observers, the first raises; the record action precedes
both invocations, both observers are invoked, and the event is persisted. -/
theorem emit_durable_ordered_isolated_witness :
    (emit noFaults [cbBoom, cbQuiet] evSample storeEmpty).err = none
      ∧ (emit noFaults [cbBoom, cbQuiet] evSample storeEmpty).store.events
          = storeEmpty.events ++ [evSample]
      ∧ (emit noFaults [cbBoom, cbQuiet] evSample storeEmpty).trace.head?
          = some (Action.record evSample)
      ∧ (emit noFaults [cbBoom, cbQuiet] evSample storeEmpty).trace.tail
          = [cbBoom, cbQuiet].map
              (fun c => Action.invoke c.id evSample (raised (c.run evSample))) :=
  emit_durable_ordered_isolated noFaults [cbBoom, cbQuiet] evSample storeEmpty rfl

/-! ### Claim C7 -/

/-- C7: `new_financing` fires (exactly once) precisely when the new
last-financing date is non-null and differs from the old one — so unlike the
funding/headcount rules a null-to-value transition does emit — and the
emitted event's details carry deal type, date and size from the new state. -/
theorem detect_new_financing_marker (old new : Company) :
    countType (detectCompanyChanges old new) "new_financing"
        = (if new.last_financing_date ≠ none ∧
              new.last_financing_date ≠ old.last_financing_date then 1 else 0)
      ∧ ∀ d : String, new.last_financing_date = some d →
          new.last_financing_date ≠ old.last_financing_date →
          newFinancingEvent new d ∈ detectCompanyChanges old new
            ∧ (newFinancingEvent new d).details
                = [("deal_type", JsonVal.s new.last_financing_deal_type),
                   ("date", JsonVal.s d),
                   ("size_usd", jsonOfOptInt new.last_financing_size_usd)] := by
  constructor
  · simp only [detectCompanyChanges, countType_append]
    rw [countType_statusDiff old new _ (by decide),
        countType_fundingDiff_ne old new _ (by decide),
        countType_employeeDiff_ne old new _ (by decide), countType_financingDiff]
    simp
  · intro d hd hne
    have hne' : some d ≠ old.last_financing_date := by rw [← hd]; exact hne
    have hfin : financingDiff old new = [newFinancingEvent new d] := by
      simp [financingDiff, hd, hne']
    exact ⟨by simp [detectCompanyChanges, hfin], rfl⟩

/-- C7 witness: old state has no financing date, the new one does; the
`new_financing` event is among the detected changes with the new state's
deal type, date and size in its details. -/
theorem detect_new_financing_marker_witness :
    newFinancingEvent acmeNew "2024-01-15" ∈ detectCompanyChanges acmeOld acmeNew
      ∧ (newFinancingEvent acmeNew "2024-01-15").details
          = [("deal_type", JsonVal.s acmeNew.last_financing_deal_type),
             ("date", JsonVal.s "2024-01-15"),
             ("size_usd", jsonOfOptInt acmeNew.last_financing_size_usd)] :=
  (detect_new_financing_marker acmeOld acmeNew).2 "2024-01-15" rfl (by decide)

/-! ### Claim C8 (corrected) -/

/-- C8 counterexample: with `upsert_company` raising a store-layer error,
the per-company check raises (`some storeError`), yet the poll cycle catches
it at the per-target boundary and completes without raising — so a store
error raised inside a per-entity check does not propagate out of the cycle,
contrary to the claim. -/
theorem pollCycle_swallows_storeError :
    (checkCompany clientAcme faultsUpsert [] "C-1" "Acme" storeWatchedOne).err
        = some Err.storeError
      ∧ (pollCycle clientAcme faultsUpsert [] storeWatchedOne).err = none := by
  exact ⟨rfl, rfl⟩

/-- C8 amended: only a store-layer error raised by the watch-list read at
the start of `_poll_cycle` propagates out of the cycle; an error raised
inside a per-company check — store-layer included — is caught at the
per-target boundary, so with a healthy watch-list read the cycle never
raises. -/
theorem pollCycle_storeError_boundary
    (client : Client) (f : StoreFaults) (cbs : List Callback) (st : Store) :
    (f.onListWatched = true → (pollCycle client f cbs st).err = some Err.storeError)
      ∧ (f.onListWatched = false → (pollCycle client f cbs st).err = none) := by
  constructor
  · intro h
    simp [pollCycle, Store.listWatched, h]
  · intro h
    have hlw : Store.listWatched f st = .ok st.watched := by
      simp [Store.listWatched, h]
    unfold pollCycle
    rw [hlw]
    cases hE : st.watched.isEmpty with
    | true =>
        have hnil : st.watched = [] := by simpa using hE
        simp [hnil]
    | false =>
        simp only [hE, Bool.false_eq_true, if_false]
        exact checkAllCompanies_err_none client f cbs st.watched st
/-- C8 amended witness: the watch-list fault propagates; with a healthy
watch-list read the same cycle raises nothing. -/
theorem pollCycle_storeError_boundary_witness :
    (pollCycle clientAcme faultsListW [] storeWatchedOne).err = some Err.storeError
      ∧ (pollCycle clientAcme noFaults [] storeWatchedOne).err = none :=
  ⟨(pollCycle_storeError_boundary clientAcme faultsListW [] storeWatchedOne).1 rfl,
   (pollCycle_storeError_boundary clientAcme noFaults [] storeWatchedOne).2 rfl⟩

/-! ### Claim C9 -/

/-- C9: a deal already stored for the checked company is left untouched by
`_check_deals`, even when the fresh fetch contains an item with the same id
and different field values — only unseen ids trigger writes. -/
theorem checkDeals_stored_immutable
    (client : Client) (cbs : List Callback) (cid cname : String) (st : Store)
    (api : List Deal)
    (hfetch : client.getCompanyDeals cid = .ok api) :
    ∀ d0 ∈ st.deals, d0.company_id = cid →
      findDeal (checkDeals client noFaults cbs cid cname st).store.deals d0.pitchbook_id
        = findDeal st.deals d0.pitchbook_id := by
  rw [checkDeals_noFaults _ _ _ _ _ _ hfetch]
  intro d0 hd0 hcid
  apply findDeal_foldl_preserve
  intro y hy hc
  have hy' := List.mem_filter.mp hy
  have hmem : d0.pitchbook_id ∈
      (st.deals.filter (fun x => x.company_id == cid)).map (fun x => x.pitchbook_id) :=
    List.mem_map_of_mem (fun x => x.pitchbook_id)
      (List.mem_filter.mpr ⟨hd0, by simpa using hcid⟩)
  have h2 := hy'.2
  rw [hc] at h2
  have h3 : d0.pitchbook_id ∉
      (st.deals.filter (fun x => x.company_id == cid)).map (fun x => x.pitchbook_id) := by
    simpa using h2
  exact h3 hmem

/-- C9 witness: `D-1` is stored; the fetch returns a `D-1` with different
field values plus a new `D-2`; the stored `D-1` row is unchanged. -/
theorem checkDeals_stored_immutable_witness :
    findDeal (checkDeals clientAltDeals noFaults [] "C-1" "Acme" storeOneDeal).store.deals
        "D-1" = findDeal storeOneDeal.deals "D-1" :=
  checkDeals_stored_immutable clientAltDeals [] "C-1" "Acme" storeOneDeal
    [dealOneAlt, dealTwo] rfl dealOne (by decide) (by decide)

/-! ### Claim C6 -/

theorem mem_recordsOf (tr : List Action) (e : ChangeEvent) :
    e ∈ recordsOf tr ↔ Action.record e ∈ tr := by
  induction tr with
  | nil => simp
  | cons a rest ih => cases a <;> simp [ih]

theorem countTraceType_eq_zero (tr : List Action) (t : String)
    (h : ∀ e, Action.record e ∈ tr → e.change_type ≠ t) :
    countTraceType tr t = 0 := by
  unfold countTraceType
  rw [List.countP_eq_zero]
  intro e he
  simpa using h e ((mem_recordsOf tr e).mp he)

theorem checkDeals_records (client : Client) (cbs : List Callback)
    (cid cname : String) (st : Store) :
    ∀ e, Action.record e ∈ (checkDeals client noFaults cbs cid cname st).trace →
      e.change_type = "new_deal" := by
  intro e he
  rcases h : client.getCompanyDeals cid with er | api
  · simp only [checkDeals, h] at he
    simp at he
  · rw [checkDeals_noFaults _ _ _ _ _ _ h] at he
    have hm : e ∈ recordsOf (checkDeals client noFaults cbs cid cname st).trace := by
      rw [checkDeals_noFaults _ _ _ _ _ _ h]
      exact (mem_recordsOf _ _).mpr he
    rw [checkDeals_noFaults _ _ _ _ _ _ h] at hm
    simp only [recordsOf_cons_fetchDeals, recordsOf_emitTrace] at hm
    obtain ⟨d, _, rfl⟩ := List.mem_map.mp hm
    rfl

/-- Diffing a snapshot against itself yields no events. -/
theorem detect_self (c : Company) : detectCompanyChanges c c = [] := by
  cases htr : c.total_raised_usd <;> cases hec : c.employee_count <;>
    cases hlf : c.last_financing_date <;>
      simp [detectCompanyChanges, statusDiff, fundingDiff, employeeDiff, financingDiff,
        htr, hec, hlf]

/-- Reading back an upserted snapshot returns it unchanged. -/
theorem getCompany_of_upserted (st : Store) (cid : String) (fresh : Company)
    (h : findCompanyRow st.companies cid = some (companyToRow fresh)) :
    Store.getCompany noFaults st cid = .ok (some fresh) := by
  simp [h, rowToCompany_companyToRow]

theorem checkDeals_companies_watched (client : Client) (cbs : List Callback)
    (cid cname : String) (st : Store) :
    (checkDeals client noFaults cbs cid cname st).store.companies = st.companies
      ∧ (checkDeals client noFaults cbs cid cname st).store.watched = st.watched := by
  rcases h : client.getCompanyDeals cid with er | api
  · simp [checkDeals, h]
  · rw [checkDeals_noFaults _ _ _ _ _ _ h]
    exact ⟨rfl, rfl⟩

/-- A healthy per-company check leaves the watch registry alone and either
leaves the companies table unchanged or upserts the freshly fetched state. -/
theorem checkCompany_effects (client : Client) (cbs : List Callback)
    (cid cname : String) (st : Store) :
    (checkCompany client noFaults cbs cid cname st).store.watched = st.watched
      ∧ ((checkCompany client noFaults cbs cid cname st).store.companies = st.companies
          ∨ ∃ fresh, client.getCompany cid = .ok fresh ∧
              (checkCompany client noFaults cbs cid cname st).store.companies
                = upsertRow st.companies (companyToRow fresh)) := by
  rcases hf : client.getCompany cid with er | fresh
  · simp [checkCompany, hf]
  · rcases hrow : findCompanyRow st.companies cid with _ | row
    · simp only [checkCompany, hf, getCompany_noFaults, hrow, upsertCompany_noFaults,
        emit_noFaults, andThen_ok, withTrace_mk]
      have h1 := checkDeals_companies_watched client cbs cid cname
        { st with companies := upsertRow st.companies (companyToRow fresh),
                  events := st.events ++ [newCompanyEvent cid cname] }
      exact ⟨h1.2, Or.inr ⟨fresh, rfl, h1.1⟩⟩
    · rcases hpc : rowToCompany row with _ | stored
      · simp [checkCompany, hf, hrow, hpc]
      · simp only [checkCompany, hf, getCompany_noFaults, hrow, hpc]
        rw [emitAll_noFaults]
        simp only [andThen_ok, upsertCompany_noFaults, withTrace_mk]
        have h1 := checkDeals_companies_watched client cbs cid cname
          { st with events := st.events ++ detectCompanyChanges stored fresh,
                    companies := upsertRow st.companies (companyToRow fresh) }
        exact ⟨h1.2, Or.inr ⟨fresh, rfl, h1.1⟩⟩

/-- A healthy check settles its own target. -/
theorem checkCompany_settles (client : Client) (cbs : List Callback)
    (cid cname : String) (st : Store)
    (hcoh : ∀ c, client.getCompany cid = .ok c → c.pitchbook_id = cid) :
    settled client (checkCompany client noFaults cbs cid cname st).store cid := by
  intro fresh hf
  have hpid : (companyToRow fresh).pitchbook_id = cid := by
    simp [companyToRow, hcoh fresh hf]
  rcases hrow : findCompanyRow st.companies cid with _ | row
  · left
    simp only [checkCompany, hf, getCompany_noFaults, hrow, upsertCompany_noFaults,
      emit_noFaults, andThen_ok, withTrace_mk]
    rw [(checkDeals_companies_watched client cbs cid cname _).1]
    rw [← hpid]
    exact findRow_upsert_self _ _
  · rcases hpc : rowToCompany row with _ | stored
    · right
      refine ⟨row, ?_, hpc⟩
      simp [checkCompany, hf, hrow, hpc]
    · left
      simp only [checkCompany, hf, getCompany_noFaults, hrow, hpc]
      rw [emitAll_noFaults]
      simp only [andThen_ok, upsertCompany_noFaults, withTrace_mk]
      rw [(checkDeals_companies_watched client cbs cid cname _).1]
      rw [← hpid]
      exact findRow_upsert_self _ _

/-- A healthy check preserves settledness of every id (its own target it
re-settles; others it does not touch). -/
theorem checkCompany_preserves_settled (client : Client) (cbs : List Callback)
    (cid cname x : String) (st : Store)
    (hcoh : ∀ cid' c, client.getCompany cid' = .ok c → c.pitchbook_id = cid')
    (hs : settled client st x) :
    settled client (checkCompany client noFaults cbs cid cname st).store x := by
  by_cases hx : cid = x
  · subst hx
    exact checkCompany_settles client cbs cid cname st (hcoh cid)
  · intro fresh hf
    rcases (checkCompany_effects client cbs cid cname st).2 with hsame | ⟨fr2, hfr2, hup⟩
    · rw [hsame]
      exact hs fresh hf
    · rw [hup, findRow_upsert_other]
      · exact hs fresh hf
      · simp only [companyToRow]
        rw [hcoh cid fr2 hfr2]
        exact hx

theorem checkAll_preserves_settled (client : Client) (cbs : List Callback)
    (hcoh : ∀ cid' c, client.getCompany cid' = .ok c → c.pitchbook_id = cid') :
    ∀ (l : List (String × String)) (st : Store) (x : String),
      settled client st x →
      settled client (checkAllCompanies client noFaults cbs l st).store x := by
  intro l
  induction l with
  | nil => intro st x hs; exact hs
  | cons q rest ih =>
      intro st x hs
      obtain ⟨cid, cname⟩ := q
      simp only [checkAllCompanies]
      exact ih _ x (checkCompany_preserves_settled client cbs cid cname x st hcoh hs)

/-- After the per-target loop, every processed target is settled. -/
theorem checkAll_settles (client : Client) (cbs : List Callback)
    (hcoh : ∀ cid' c, client.getCompany cid' = .ok c → c.pitchbook_id = cid') :
    ∀ (l : List (String × String)) (st : Store), ∀ p ∈ l,
      settled client (checkAllCompanies client noFaults cbs l st).store p.1 := by
  intro l
  induction l with
  | nil => intro st p hp; simp at hp
  | cons q rest ih =>
      intro st p hp
      rcases List.mem_cons.mp hp with rfl | hp'
      · obtain ⟨cid, cname⟩ := p
        simp only [checkAllCompanies]
        exact checkAll_preserves_settled client cbs hcoh rest _ cid
          (checkCompany_settles client cbs cid cname st (hcoh cid))
      · obtain ⟨cid, cname⟩ := q
        simp only [checkAllCompanies]
        exact ih _ p hp'

/-- Checking a settled target records no field-diff events. -/
theorem checkCompany_settled_no_fieldDiff (client : Client) (cbs : List Callback)
    (cid cname : String) (st : Store) (hs : settled client st cid) :
    ∀ t ∈ fieldDiffTypes,
      countTraceType (checkCompany client noFaults cbs cid cname st).trace t = 0 := by
  intro t ht
  have htnd : t ≠ "new_deal" := by
    simp only [fieldDiffTypes, List.mem_cons, List.not_mem_nil, or_false] at ht
    rcases ht with rfl | rfl | rfl | rfl <;> decide
  rcases hf : client.getCompany cid with er | fresh
  · simp [checkCompany, hf, countTraceType, countType]
  · rcases hs fresh hf with hrow | ⟨row, hrow, hpc⟩
    · have hget := getCompany_of_upserted st cid fresh hrow
      simp only [checkCompany, hf, hget, detect_self, emitAll, andThen_ok,
        upsertCompany_noFaults, withTrace_mk]
      apply countTraceType_eq_zero
      intro e he hety
      have : e.change_type = "new_deal" := by
        apply checkDeals_records client cbs cid cname
        simpa using he
      exact htnd (hety ▸ this)
    · simp only [checkCompany, hf, getCompany_noFaults, hrow, hpc, withTrace_mk]
      simp [countTraceType, countType]

/-- The per-target loop over settled targets records no field-diff events. -/
theorem checkAll_no_fieldDiff (client : Client) (cbs : List Callback) (t : String)
    (ht : t ∈ fieldDiffTypes)
    (hcoh : ∀ cid' c, client.getCompany cid' = .ok c → c.pitchbook_id = cid') :
    ∀ (l : List (String × String)) (st : Store),
      (∀ p ∈ l, settled client st p.1) →
      countTraceType (checkAllCompanies client noFaults cbs l st).trace t = 0 := by
  intro l
  induction l with
  | nil => intro st _; rfl
  | cons q rest ih =>
      intro st hsall
      obtain ⟨cid, cname⟩ := q
      simp only [checkAllCompanies, countTraceType_append]
      rw [checkCompany_settled_no_fieldDiff client cbs cid cname st
          (hsall (cid, cname) (by simp)) t ht]
      rw [ih _ (fun p hp => checkCompany_preserves_settled client cbs cid cname p.1 st hcoh
          (hsall p (by simp [hp])))]

/-- Reduction of a healthy poll cycle. -/
theorem pollCycle_noFaults_eq (client : Client) (cbs : List Callback) (st : Store) :
    pollCycle client noFaults cbs st =
      if st.watched.isEmpty then ⟨none, st, []⟩
      else checkAllCompanies client noFaults cbs st.watched st := by
  simp [pollCycle]

theorem checkAll_watched (client : Client) (cbs : List Callback) :
    ∀ (l : List (String × String)) (st : Store),
      (checkAllCompanies client noFaults cbs l st).store.watched = st.watched := by
  intro l
  induction l with
  | nil => intro st; rfl
  | cons q rest ih =>
      intro st
      obtain ⟨cid, cname⟩ := q
      simp only [checkAllCompanies]
      rw [ih _]
      exact (checkCompany_effects client cbs cid cname st).1

theorem pollCycle_watched (client : Client) (cbs : List Callback) (st : Store) :
    (pollCycle client noFaults cbs st).store.watched = st.watched := by
  rw [pollCycle_noFaults_eq]
  cases hE : st.watched.isEmpty with
  | true => simp [hE]
  | false =>
      simp only [hE, Bool.false_eq_true, if_false]
      exact checkAll_watched client cbs st.watched st

/-- C6: with unchanged provider data (the client is a function of the id, so
both cycles fetch the same state and sub-collection), a second poll cycle
run immediately on the store left by a first one records zero field-diff
events: the snapshot persisted in cycle one reads back equal to the fresh
state on every diffed field. -/
theorem second_cycle_no_field_diffs (client : Client) (cbs : List Callback) (st : Store)
    (hcoh : ∀ cid c, client.getCompany cid = .ok c → c.pitchbook_id = cid) :
    ∀ t ∈ fieldDiffTypes,
      countTraceType (pollCycle client noFaults cbs
        ((pollCycle client noFaults cbs st).store)).trace t = 0 := by
  intro t ht
  cases hE : st.watched.isEmpty with
  | true =>
      have hc1 : (pollCycle client noFaults cbs st).store = st := by
        simp [pollCycle_noFaults_eq, hE]
      rw [hc1]
      simp [pollCycle_noFaults_eq, hE, countTraceType]
  | false =>
      have hw1 : (pollCycle client noFaults cbs st).store.watched = st.watched :=
        pollCycle_watched client cbs st
      have hsettled : ∀ p ∈ st.watched,
          settled client (pollCycle client noFaults cbs st).store p.1 := by
        rw [pollCycle_noFaults_eq, hE]
        simp only [Bool.false_eq_true, if_false]
        exact checkAll_settles client cbs hcoh st.watched st
      rw [pollCycle_noFaults_eq _ _ ((pollCycle client noFaults cbs st).store), hw1, hE]
      simp only [Bool.false_eq_true, if_false]
      exact checkAll_no_fieldDiff client cbs t ht hcoh st.watched _ hsettled

/-- C6 witness: one watched company, fixed client data; after a first cycle
from the empty store, the second cycle records zero `funding_update`
events. -/
theorem second_cycle_no_field_diffs_witness :
    countTraceType (pollCycle clientAcme noFaults []
      ((pollCycle clientAcme noFaults [] storeWatchedOne).store)).trace
      "funding_update" = 0 :=
  second_cycle_no_field_diffs clientAcme [] storeWatchedOne
    (by
      intro cid c h
      by_cases hc : cid = "C-1"
      · subst hc
        simp only [clientAcme, if_pos rfl] at h
        cases h
        rfl
      · simp [clientAcme, hc] at h)
    "funding_update" (by decide)

/-! ### Claim C10 -/

/-- C10: `run()` sets `_running` unconditionally on entry, so a `stop()`
issued before `run()` changes nothing (the loop still enters and executes
cycles whenever it has fuel), while a `stop()` issued during cycle `k` of a
running loop makes it exit at the next cycle boundary: exactly `k + 1`
cycles execute (fuel permitting). -/
theorem run_sets_running_flag (fuel : Nat) (l : ListenerState)
    (stopAt : Nat → Bool) (k : Nat) :
    runModel fuel (stop l) stopAt = runModel fuel l stopAt
      ∧ (1 ≤ fuel → 1 ≤ runModel fuel l stopAt)
      ∧ runModel fuel l (fun j => j == k) = min fuel (k + 1) := by
  have hFalse : ∀ (s : Nat → Bool) (n k0 : Nat), runLoop s n k0 ⟨false⟩ = 0 := by
    intro s n k0
    cases n <;> simp [runLoop]
  have key : ∀ (n j : Nat), j ≤ k →
      runLoop (fun j => j == k) n j ⟨true⟩ = min n (k + 1 - j) := by
    intro n
    induction n with
    | zero => intro j hj; simp [runLoop]
    | succ m ih =>
        intro j hj
        by_cases hjk : j = k
        · subst hjk
          have hb : ((j == j) : Bool) = true := by simp
          simp [runLoop, hb, stop, hFalse]
        · have hb : ((j == k) : Bool) = false := by simp [hjk]
          have hj' : j + 1 ≤ k := by omega
          simp [runLoop, hb]
          rw [ih (j + 1) hj']
          omega
  refine ⟨rfl, ?_, ?_⟩
  · intro hf
    cases fuel with
    | zero => omega
    | succ m =>
        simp [runModel, runLoop, runEntry]
  · have := key fuel 0 (by omega)
    simpa [runModel, runEntry] using this

/-- C10 witness: with fuel 3, a pre-`run` `stop()` changes nothing and the
loop runs; a `stop()` during cycle 1 yields exactly 2 cycles. -/
theorem run_sets_running_flag_witness :
    runModel 3 (stop initListener) (fun _ => false)
        = runModel 3 initListener (fun _ => false)
      ∧ 1 ≤ runModel 3 initListener (fun _ => false)
      ∧ runModel 3 initListener (fun j => j == 1) = min 3 2 :=
  ⟨(run_sets_running_flag 3 initListener (fun _ => false) 1).1,
   (run_sets_running_flag 3 initListener (fun _ => false) 1).2.1 (by decide),
   (run_sets_running_flag 3 initListener (fun _ => false) 1).2.2⟩

end Booker
